import Mathlib

/-!
Verification of the cursor-usage-tracker event pipeline.

This file gives a shallow embedding of the storage / collection layer of the
repository (src/storage/data_storage.js and src/collectors/data_collector.js)
and proves the spec claims about it.  JavaScript numbers are modelled as `Rat`
(all arithmetic appearing in the embedded code paths is exact in binary
floating point for the reachable value ranges, so `Rat` is a faithful model),
epoch-millisecond dates as `Int`, and JSON objects as structures with `Option`
fields for properties that can be absent.  File I/O is modelled by passing the
persisted dataset in and out explicitly; `Date.now()` becomes an explicit
`now : Int` argument.
-/

/-- Canonical token-usage breakdown of an event
(data_collector.js, `parseUsageEvent`). -/
structure TokenUsage where
  inputTokens : Rat
  outputTokens : Rat
  cacheReadTokens : Rat
  cacheWriteTokens : Rat
  totalTokens : Rat
deriving DecidableEq

/-- Canonical cost information of an event (data_collector.js,
`parseUsageEvent`).  `discountedCost` and `discount` are compared by
`isEventUpdated` in data_storage.js but are never set by the parser, so they
are modelled as optional. -/
structure CostInfo where
  totalCents : Rat
  requestsCosts : Rat
  usageBasedCosts : Rat
  isIncluded : Bool
  isFree : Bool
  displayCost : Rat
  originalCost : Rat
  discountedCost : Option Rat
  discount : Option Rat
deriving DecidableEq

/-- A canonical usage event as persisted in `usage_data.json`.
`rawMaxMode` models `rawData.maxMode` (the only part of the retained raw
record that the storage layer reads; `none` covers both a missing `rawData`
and a `rawData` without a `maxMode` field, which the code treats alike). -/
structure Event where
  id : String
  date : Int
  model : String
  kind : String
  kindDisplay : String
  tokens : Rat
  tokenUsage : Option TokenUsage
  cost : Rat
  costInfo : Option CostInfo
  credits : Rat
  maxMode : Bool
  source : String
  rawMaxMode : Option Bool
deriving DecidableEq

/-- `id.split('_')[0]`: the characters of `id` before the first underscore.
(JavaScript `String.prototype.split` puts exactly this substring at index 0.) -/
def tsOf (s : String) : String :=
  (s.toList.takeWhile (fun c => c ≠ '_')).asString

/-- `s.startsWith(p)` from JavaScript. -/
def strStarts (s p : String) : Bool :=
  p.toList.isPrefixOf s.toList

/-- data_storage.js `isEventUpdated`: field-by-field comparison used to decide
whether an incoming event is an update of a stored event with the same
timestamp prefix.  The nested comparisons run only when both events carry the
corresponding sub-object, exactly as the `&&` guards in the source. -/
def isEventUpdated (existingEvent newEvent : Event) : Bool :=
  if tsOf existingEvent.id ≠ tsOf newEvent.id then false
  else if existingEvent.credits ≠ newEvent.credits then true
  else if existingEvent.tokens ≠ newEvent.tokens then true
  else if existingEvent.cost ≠ newEvent.cost then true
  else if existingEvent.kind ≠ newEvent.kind then true
  else if existingEvent.model ≠ newEvent.model then true
  else
    (match existingEvent.tokenUsage, newEvent.tokenUsage with
     | some tu1, some tu2 =>
       if tu1.inputTokens ≠ tu2.inputTokens then true
       else if tu1.outputTokens ≠ tu2.outputTokens then true
       else if tu1.cacheReadTokens ≠ tu2.cacheReadTokens then true
       else if tu1.cacheWriteTokens ≠ tu2.cacheWriteTokens then true
       else false
     | _, _ => false) ||
    (match existingEvent.costInfo, newEvent.costInfo with
     | some ci1, some ci2 =>
       if ci1.originalCost ≠ ci2.originalCost then true
       else if ci1.discountedCost ≠ ci2.discountedCost then true
       else if ci1.discount ≠ ci2.discount then true
       else false
     | _, _ => false)

/-- Modelled from the spec: `CONFIG.ACTIVE_EVENTS_CHECK_HOURS`.  The
`constants.js` revision present in the sources lacks this field; the spec and
the repository README give the recency window for active-event detection as
24 hours. -/
def ACTIVE_EVENTS_CHECK_HOURS : Nat := 24

/-- Modelled from the spec: `CONFIG.ACTIVE_EVENTS_MAX_COUNT`.  The
`constants.js` revision present in the sources lacks this field; the spec and
the repository README give the maximum active-event count as 100. -/
def ACTIVE_EVENTS_MAX_COUNT : Nat := 100

/-- data_storage.js `getActiveEvents`: the stored events whose date lies in
the recency window from `now`, capped at the first `ACTIVE_EVENTS_MAX_COUNT`
of them (the stored list is ordered newest-first, so these are the most
recent).  Date parsing cannot fail in the model, so the `catch` branch of the
source filter does not arise. -/
def getActiveEvents (now : Int) (events : List Event) : List Event :=
  if events.isEmpty then []
  else
    let checkMs : Int := (ACTIVE_EVENTS_CHECK_HOURS : Int) * 60 * 60 * 1000
    let cutoffTime := now - checkMs
    let timeFilteredEvents := events.filter (fun e => cutoffTime ≤ e.date)
    if ACTIVE_EVENTS_MAX_COUNT < timeFilteredEvents.length then
      timeFilteredEvents.take ACTIVE_EVENTS_MAX_COUNT
    else timeFilteredEvents

/-- `syncMetadata` of the persisted dataset (data_storage.js). -/
structure SyncMetadata where
  lastSuccessfulSync : Int
  adaptivePageSize : Nat
  syncStrategy : String
deriving DecidableEq

/-- The persisted `usage_data.json` document (data_storage.js). -/
structure UsageDataset where
  timestamp : Int
  lastSyncDate : Int
  totalEvents : Nat
  syncMetadata : SyncMetadata
  events : List Event
deriving DecidableEq

/-- Stable insertion of an event into a list kept in descending date order:
the event goes in front of the first element that is not strictly newer. -/
def insertByDateDesc (e : Event) : List Event → List Event
  | [] => [e]
  | x :: xs => if x.date ≤ e.date then e :: x :: xs else x :: insertByDateDesc e xs

/-- `events.sort((a, b) => new Date(b.date) - new Date(a.date))`.
JavaScript `Array.prototype.sort` is a stable sort, and a stable sort's
output is uniquely determined by the comparator, so this stable insertion
sort computes exactly the array the source produces. -/
def sortByDateDesc : List Event → List Event
  | [] => []
  | x :: xs => insertByDateDesc x (sortByDateDesc xs)

/-- data_storage.js `saveUsageData`.  `store` is the current content of
`usage_data.json` (the function re-reads it when saving incrementally, only
to carry the adaptive page size forward); the returned dataset is what gets
written.  The third JavaScript parameter `lastSyncDate` is unused by the
source body and is omitted. -/
def saveUsageData (store : Option UsageDataset) (data : List Event)
    (isIncremental : Bool) (now : Int) : UsageDataset :=
  let existingData : Option UsageDataset := if isIncremental then store else none
  let syncDate : Int :=
    if isIncremental then now
    else
      match sortByDateDesc data with
      | [] => now
      | newestEvent :: _ => newestEvent.date
  { timestamp := now
    lastSyncDate := syncDate
    totalEvents := data.length
    syncMetadata :=
      { lastSuccessfulSync := now
        adaptivePageSize :=
          match existingData with
          | some d =>
            if d.syncMetadata.adaptivePageSize = 0 then 500
            else d.syncMetadata.adaptivePageSize
          | none => 500
        syncStrategy := if isIncremental then "incremental" else "full" }
    events := data }

/-- One `Map.prototype.set` step of `new Map(newData.map(e => [e.id, e]))`:
an existing key keeps its position but takes the new value, a fresh key is
appended. -/
def mapInsert (acc : List Event) (e : Event) : List Event :=
  if acc.any (fun x => x.id = e.id) then
    acc.map (fun x => if x.id = e.id then e else x)
  else acc ++ [e]

/-- `Array.from(new Map(newData.map(e => [e.id, e])).values())`:
the batch deduplicated by id, first-occurrence order, last-occurrence value. -/
def jsMapValues (l : List Event) : List Event :=
  l.foldl mapInsert []

/-- `findIndex` on the id followed by an in-place assignment: replace the
first event with the given id, leave the list unchanged when absent. -/
def replaceFirstById : List Event → String → Event → List Event
  | [], _, _ => []
  | e :: rest, tid, u =>
    if e.id = tid then u :: rest else e :: replaceFirstById rest tid u

/-- The search in the update pass of `mergeUsageData`: the first deduplicated
incoming event whose (truthy) id starts with the active event's timestamp. -/
def findUpdatedEvent (vals : List Event) (activeTimestamp : String) : Option Event :=
  vals.find? (fun e => decide (e.id ≠ "") && strStarts e.id activeTimestamp)

/-- One iteration of the update pass of `mergeUsageData` over an active
event: look the active timestamp up in the incoming batch and, when the match
counts as updated, replace the stored event in place and bump the counter. -/
def updateStep (vals : List Event) (acc : List Event × Nat) (a : Event) :
    List Event × Nat :=
  match findUpdatedEvent vals (tsOf a.id) with
  | some updatedEvent =>
    if isEventUpdated a updatedEvent then
      (replaceFirstById acc.1 a.id updatedEvent, acc.2 + 1)
    else acc
  | none => acc

/-- The whole update pass of `mergeUsageData`: fold over the active events,
threading the (mutated) stored event list and the updated-event counter. -/
def applyUpdates (events active vals : List Event) : List Event × Nat :=
  active.foldl (updateStep vals) (events, 0)

/-- The addition pass of `mergeUsageData`: incoming events kept only when
neither their full id nor their timestamp prefix occurs in the (already
update-patched) stored events. -/
def newEventsFor (postEvents newData : List Event) : List Event :=
  newData.filter (fun m =>
    !(postEvents.any (fun e => e.id = m.id)) &&
    !(postEvents.any (fun e => tsOf e.id = tsOf m.id)))

/-- data_storage.js `mergeUsageData`.  Returns `some d` when the dataset `d`
is written to disk and `none` when the merge is skipped (nothing written and
no statistics recompute).  The inner `saveUsageData` call re-reads the file,
which still holds the pre-merge `store` (the update pass only mutated the
in-memory copy). -/
def mergeUsageData (store : Option UsageDataset) (newData : List Event)
    (isIncremental : Bool) (now : Int) : Option UsageDataset :=
  match store with
  | none => some (saveUsageData none newData isIncremental now)
  | some existingData =>
    if isIncremental then
      let activeEvents := getActiveEvents now existingData.events
      let vals := jsMapValues newData
      let upd := applyUpdates existingData.events activeEvents vals
      let newEvents := newEventsFor upd.1 newData
      if newEvents.isEmpty ∧ upd.2 = 0 then none
      else some (saveUsageData store (sortByDateDesc (newEvents ++ upd.1)) true now)
    else some (saveUsageData store newData false now)

/-- JavaScript `Math.round` on the (finite, non-negative) values reachable
here: round half toward positive infinity. -/
def jsRound (x : Rat) : Int := ⌊x + 1 / 2⌋

/-- The page-size computation of data_storage.js `updateAdaptivePageSize`,
acting on the stored `adaptivePageSize` value (after the `|| 500` default):
fast response with a full page grows the size by 1.5 capped at 1000, a slow
response shrinks it by 0.7 floored at 100, and the rounded result is stored
only when it changed.  The factors 1.5 and 0.7 and the comparisons are exact
in double-precision floats over this range, so `Rat` models them exactly. -/
def nextAdaptivePageSize (currentPageSize : Nat) (responseTime : Nat)
    (eventsCount : Nat) : Nat :=
  let newPageSize : Rat :=
    if responseTime < 1000 ∧ eventsCount = currentPageSize then
      min ((currentPageSize : Rat) * (3 / 2)) 1000
    else if 3000 < responseTime then
      max ((currentPageSize : Rat) * (7 / 10)) 100
    else (currentPageSize : Rat)
  if newPageSize = (currentPageSize : Rat) then currentPageSize
  else (jsRound newPageSize).toNat

/-- The token-usage sub-object of a raw vendor event
(data_collector.js, `parseUsageEvent`).  Absent numeric fields are `none`. -/
structure RawTokenUsage where
  inputTokens : Option Rat
  outputTokens : Option Rat
  cacheReadTokens : Option Rat
  cacheWriteTokens : Option Rat
  totalCents : Option Rat
deriving DecidableEq

/-- A raw vendor event as consumed by `parseUsageEvent`.  `timestamp` is the
numeric value of the vendor's epoch-millis string (`none` when absent).
`usageBasedCosts` is `none` when the field is absent, falsy, or the literal
dash the source skips; otherwise it holds the `parseFloat` value.
`detailsMaxMode` models `details.toolCallComposer.maxMode` with the nested
existence checks folded into one option. -/
structure RawEvent where
  timestamp : Option Int
  kind : Option String
  customSubscriptionName : Option String
  model : Option String
  tokenUsage : Option RawTokenUsage
  requestsCosts : Option Rat
  usageBasedCosts : Option Rat
  maxMode : Option Bool
  detailsMaxMode : Option Bool
deriving DecidableEq

/-- The five vendor kinds of the first `isIncluded` branch of
`parseUsageEvent` (custom subscriptions and the four included-in-plan
kinds). -/
def isIncludedKind (kind : Option String) : Bool :=
  kind = some "USAGE_EVENT_KIND_CUSTOM_SUBSCRIPTION" ∨
  kind = some "USAGE_EVENT_KIND_INCLUDED_IN_PRO" ∨
  kind = some "USAGE_EVENT_KIND_INCLUDED_IN_BUSINESS" ∨
  kind = some "USAGE_EVENT_KIND_INCLUDED_IN_PRO_PLUS" ∨
  kind = some "USAGE_EVENT_KIND_INCLUDED_IN_ULTRA"

/-- The two not-charged vendor kinds of the `isFree` branch of
`parseUsageEvent`. -/
def isNotChargedKind (kind : Option String) : Bool :=
  kind = some "USAGE_EVENT_KIND_ERRORED_NOT_CHARGED" ∨
  kind = some "USAGE_EVENT_KIND_ABORTED_NOT_CHARGED"

/-- The kind-mapping switch of `parseUsageEvent`: vendor enum string to
(slug, label).  An empty `customSubscriptionName` is falsy in the source and
falls back to the default label. -/
def parseKindPair (kind : Option String) (customSubscriptionName : Option String) :
    String × String :=
  match kind with
  | some "USAGE_EVENT_KIND_CUSTOM_SUBSCRIPTION" =>
    match customSubscriptionName with
    | some "pro-free-trial" => ("pro-free-trial", "Pro Free Trial")
    | some "free" => ("free", "Free")
    | some n =>
      ("custom_subscription", if n = "" then "Custom Subscription" else n)
    | none => ("custom_subscription", "Custom Subscription")
  | some "USAGE_EVENT_KIND_INCLUDED_IN_PRO" => ("included_pro", "Included in Pro")
  | some "USAGE_EVENT_KIND_INCLUDED_IN_BUSINESS" =>
    ("included_business", "Included in Business")
  | some "USAGE_EVENT_KIND_INCLUDED_IN_PRO_PLUS" =>
    ("included_pro_plus", "Included in Pro+")
  | some "USAGE_EVENT_KIND_INCLUDED_IN_ULTRA" => ("included_ultra", "Included in Ultra")
  | some "USAGE_EVENT_KIND_ERRORED_NOT_CHARGED" =>
    ("errored_not_charged", "Errored, Not Charged")
  | some "USAGE_EVENT_KIND_ABORTED_NOT_CHARGED" =>
    ("aborted_not_charged", "Aborted, Not Charged")
  | some "USAGE_EVENT_KIND_USAGE_BASED" => ("usage_based", "Usage Based")
  | some "USAGE_EVENT_KIND_USER_API_KEY" => ("user_api_key", "User API Key")
  | _ => ("unknown", "Unknown")

/-- The token-usage accumulation of `parseUsageEvent`: each sub-field
defaults to 0, the total is the sum of the four. -/
def parseTokenUsage (raw : Option RawTokenUsage) : TokenUsage :=
  match raw with
  | some tu =>
    let i := tu.inputTokens.getD 0
    let o := tu.outputTokens.getD 0
    let cr := tu.cacheReadTokens.getD 0
    let cw := tu.cacheWriteTokens.getD 0
    { inputTokens := i, outputTokens := o, cacheReadTokens := cr,
      cacheWriteTokens := cw, totalTokens := i + o + cr + cw }
  | none =>
    { inputTokens := 0, outputTokens := 0, cacheReadTokens := 0,
      cacheWriteTokens := 0, totalTokens := 0 }

/-- The cost-information construction of `parseUsageEvent`, including the
`displayCost` precedence chain: included-plan kinds and not-charged kinds
pin it to 0, then `totalCents / 100`, `usageBasedCosts`, `requestsCosts`
(each when positive), else 0. -/
def parseCostInfo (event : RawEvent) : CostInfo :=
  let base : CostInfo :=
    { totalCents := 0, requestsCosts := 0, usageBasedCosts := 0,
      isIncluded := false, isFree := false, displayCost := 0,
      originalCost := 0, discountedCost := none, discount := none }
  let c1 : CostInfo :=
    match event.tokenUsage with
    | some tu =>
      match tu.totalCents with
      | some c =>
        if c ≠ 0 then { base with totalCents := c, originalCost := c / 100 }
        else base
      | none => base
    | none => base
  let c2 : CostInfo :=
    match event.requestsCosts with
    | some rc => if rc ≠ 0 then { c1 with requestsCosts := rc } else c1
    | none => c1
  let c3 : CostInfo :=
    match event.usageBasedCosts with
    | some ub => { c2 with usageBasedCosts := ub }
    | none => c2
  if isIncludedKind event.kind then { c3 with isIncluded := true, displayCost := 0 }
  else if isNotChargedKind event.kind then { c3 with isFree := true, displayCost := 0 }
  else if 0 < c3.totalCents then { c3 with displayCost := c3.totalCents / 100 }
  else if 0 < c3.usageBasedCosts then { c3 with displayCost := c3.usageBasedCosts }
  else if 0 < c3.requestsCosts then { c3 with displayCost := c3.requestsCosts }
  else c3

/-- data_collector.js `parseUsageEvent`: normalize one raw vendor event.
`now` models `new Date()` and `suffix` the random id suffix
(`Math.random().toString(36).substr(2, 9)`).  The surrounding `try` cannot
fail in the model, so the `null` branch is not represented. -/
def parseUsageEvent (event : RawEvent) (now : Int) (suffix : String) : Event :=
  let timestamp : Int :=
    match event.timestamp with
    | some ts => if 1577836800000 < ts then ts else now
    | none => now
  let tokenUsage := parseTokenUsage event.tokenUsage
  let costInfo := parseCostInfo event
  let kindPair := parseKindPair event.kind event.customSubscriptionName
  let model0 : String :=
    match event.model with
    | some m => if m = "" then "auto" else m
    | none => "auto"
  let model := if model0 = "default" then "auto" else model0
  let maxMode : Bool :=
    match event.maxMode with
    | some b => b
    | none => event.detailsMaxMode.getD false
  { id := (match event.timestamp with
           | some t => toString t
           | none => "undefined") ++ "_" ++ suffix
    date := timestamp
    model := model
    kind := kindPair.1
    kindDisplay := kindPair.2
    tokens := tokenUsage.totalTokens
    tokenUsage := some tokenUsage
    cost := costInfo.displayCost
    costInfo := some costInfo
    credits :=
      match event.requestsCosts with
      | some rc => if rc ≠ 0 then rc else costInfo.requestsCosts
      | none => costInfo.requestsCosts
    maxMode := maxMode
    source := "API"
    rawMaxMode := event.maxMode }

/-- One bucket of the per-model / per-kind statistics maps
(data_storage.js, `calculateStats`). -/
structure AggRecord where
  count : Nat
  tokens : Rat
  cost : Rat
  credits : Rat
  inputTokens : Rat
  outputTokens : Rat
  cacheReadTokens : Rat
  cacheWriteTokens : Rat
  maxMode : Nat
deriving DecidableEq

/-- The zero bucket a fresh statistics key starts from. -/
def initAgg : AggRecord :=
  { count := 0, tokens := 0, cost := 0, credits := 0, inputTokens := 0,
    outputTokens := 0, cacheReadTokens := 0, cacheWriteTokens := 0, maxMode := 0 }

/-- One bucket of the per-day statistics map. -/
structure DateAgg where
  count : Nat
  tokens : Rat
  cost : Rat
deriving DecidableEq

/-- The derived statistics document (`stats.json`).  The keyed JavaScript
objects `byModel` / `byKind` / `byDate` are association lists in insertion
order; `byDate` is keyed by the UTC day number of the event date (the code
keys by the date part of the ISO string, which is determined by that
number).  `recentEvents` keeps the selected events themselves rather than
the trimmed display records the source maps them to. -/
structure Stats where
  timestamp : Int
  totalEvents : Nat
  totalTokens : Rat
  totalCost : Rat
  estimatedCost : Rat
  totalMaxMode : Nat
  byModel : List (String × AggRecord)
  byKind : List (String × AggRecord)
  byDate : List (Int × DateAgg)
  recentEvents : List Event
deriving DecidableEq

/-- The maxMode resolution of `calculateStats`: `rawData.maxMode` wins when
defined, else the event's own `maxMode` (always defined in the model). -/
def statsMaxMode (event : Event) : Bool :=
  match event.rawMaxMode with
  | some b => b
  | none => event.maxMode

/-- The per-event cost of `calculateStats`: `costInfo.originalCost` when
present and truthy, else the event's own `cost`. -/
def eventCostOf (event : Event) : Rat :=
  match event.costInfo with
  | some ci => if ci.originalCost ≠ 0 then ci.originalCost else event.cost
  | none => event.cost

/-- The kind exclusion of `calculateStats`: events of either spelling of the
errored-not-charged kind are excluded from the plan-cost totals. -/
def isErroredKind (kind : String) : Bool :=
  kind = "errored_not_charged" ∨ kind = "USAGE_EVENT_KIND_ERRORED_NOT_CHARGED"

/-- `if (!stats.byX[k]) stats.byX[k] = init; mutate stats.byX[k]`:
update the bucket in place when the key exists, else append a freshly
initialized and mutated bucket. -/
def bumpAgg (m : List (String × AggRecord)) (k : String)
    (f : AggRecord → AggRecord) : List (String × AggRecord) :=
  match m with
  | [] => [(k, f initAgg)]
  | (k', v) :: rest =>
    if k' = k then (k', f v) :: rest else (k', v) :: bumpAgg rest k f

/-- The per-day analogue of `bumpAgg`. -/
def bumpDate (m : List (Int × DateAgg)) (k : Int)
    (f : DateAgg → DateAgg) : List (Int × DateAgg) :=
  match m with
  | [] => [(k, f { count := 0, tokens := 0, cost := 0 })]
  | (k', v) :: rest =>
    if k' = k then (k', f v) :: rest else (k', v) :: bumpDate rest k f

/-- The mutations applied to a `byModel` bucket for one event: cost is added
only when the event's kind is charged. -/
def modelUpd (event : Event) (mm : Bool) (eventCost : Rat)
    (r : AggRecord) : AggRecord :=
  { count := r.count + 1
    tokens := r.tokens + event.tokens
    cost := if !(isErroredKind event.kind) then r.cost + eventCost else r.cost
    credits := r.credits + event.credits
    inputTokens := r.inputTokens +
      (match event.tokenUsage with | some tu => tu.inputTokens | none => 0)
    outputTokens := r.outputTokens +
      (match event.tokenUsage with | some tu => tu.outputTokens | none => 0)
    cacheReadTokens := r.cacheReadTokens +
      (match event.tokenUsage with | some tu => tu.cacheReadTokens | none => 0)
    cacheWriteTokens := r.cacheWriteTokens +
      (match event.tokenUsage with | some tu => tu.cacheWriteTokens | none => 0)
    maxMode := if mm then r.maxMode + 1 else r.maxMode }

/-- The mutations applied to a `byKind` bucket for one event: cost is always
added ("display by kind" keeps the errored line). -/
def kindUpd (event : Event) (mm : Bool) (eventCost : Rat)
    (r : AggRecord) : AggRecord :=
  { count := r.count + 1
    tokens := r.tokens + event.tokens
    cost := r.cost + eventCost
    credits := r.credits + event.credits
    inputTokens := r.inputTokens +
      (match event.tokenUsage with | some tu => tu.inputTokens | none => 0)
    outputTokens := r.outputTokens +
      (match event.tokenUsage with | some tu => tu.outputTokens | none => 0)
    cacheReadTokens := r.cacheReadTokens +
      (match event.tokenUsage with | some tu => tu.cacheReadTokens | none => 0)
    cacheWriteTokens := r.cacheWriteTokens +
      (match event.tokenUsage with | some tu => tu.cacheWriteTokens | none => 0)
    maxMode := if mm then r.maxMode + 1 else r.maxMode }

/-- The `byModel` key of an event: falsy model becomes "unknown". -/
def modelKey (event : Event) : String :=
  if event.model = "" then "unknown" else event.model

/-- The `byKind` key of an event: falsy kind becomes "unknown". -/
def kindKey (event : Event) : String :=
  if event.kind = "" then "unknown" else event.kind

/-- The body of the `forEach` of `calculateStats`: fold one event into the
accumulated statistics. -/
def statsStep (s : Stats) (event : Event) : Stats :=
  let mm := statsMaxMode event
  let eventCost := eventCostOf event
  { s with
    totalTokens := s.totalTokens + event.tokens
    totalMaxMode := if mm then s.totalMaxMode + 1 else s.totalMaxMode
    totalCost :=
      if !(isErroredKind event.kind) then s.totalCost + eventCost else s.totalCost
    estimatedCost := s.estimatedCost + eventCost
    byModel := bumpAgg s.byModel (modelKey event) (modelUpd event mm eventCost)
    byKind := bumpAgg s.byKind (kindKey event) (kindUpd event mm eventCost)
    byDate := bumpDate s.byDate (Int.fdiv event.date 86400000)
      (fun d => { count := d.count + 1, tokens := d.tokens + event.tokens,
                  cost := d.cost + eventCost }) }

/-- data_storage.js `calculateStats`: full recompute of the statistics from
the event set.  `now` models the embedded write timestamp. -/
def calculateStats (now : Int) (data : List Event) : Stats :=
  let init : Stats :=
    { timestamp := now, totalEvents := data.length, totalTokens := 0,
      totalCost := 0, estimatedCost := 0, totalMaxMode := 0, byModel := [],
      byKind := [], byDate := [], recentEvents := [] }
  let s := data.foldl statsStep init
  { s with recentEvents := (sortByDateDesc data).take 10 }

/-- Association-list read of a statistics bucket, defaulting to the zero
bucket (`byKind[k]` / `byModel[k]` for a key that was never touched). -/
def alGet (m : List (String × AggRecord)) (k : String) : AggRecord :=
  match m with
  | [] => initAgg
  | (k', v) :: rest => if k' = k then v else alGet rest k

/-! ### Helper lemmas about the stable descending sort -/

theorem insertByDateDesc_perm (e : Event) (l : List Event) :
    List.Perm (insertByDateDesc e l) (e :: l) := by
  induction l with
  | nil => rfl
  | cons x xs ih =>
    by_cases h : x.date ≤ e.date
    · simp [insertByDateDesc, h]
    · simp only [insertByDateDesc, h, if_false]
      exact (List.Perm.cons x ih).trans (List.Perm.swap e x xs)

theorem sortByDateDesc_perm (l : List Event) : List.Perm (sortByDateDesc l) l := by
  induction l with
  | nil => rfl
  | cons x xs ih =>
    exact (insertByDateDesc_perm x (sortByDateDesc xs)).trans (List.Perm.cons x ih)

theorem insertByDateDesc_pairwise (e : Event) (l : List Event)
    (h : List.Pairwise (fun a b : Event => b.date ≤ a.date) l) :
    List.Pairwise (fun a b : Event => b.date ≤ a.date) (insertByDateDesc e l) := by
  induction l with
  | nil => simp [insertByDateDesc]
  | cons x xs ih =>
    rcases List.pairwise_cons.mp h with ⟨hx, hxs⟩
    by_cases hle : x.date ≤ e.date
    · simp only [insertByDateDesc, hle, if_true]
      refine List.pairwise_cons.mpr ⟨?_, h⟩
      intro y hy
      rcases List.mem_cons.mp hy with rfl | hy'
      · exact hle
      · exact (hx y hy').trans hle
    · simp only [insertByDateDesc, hle, if_false]
      refine List.pairwise_cons.mpr ⟨?_, ih hxs⟩
      intro y hy
      have hy' := (insertByDateDesc_perm e xs).mem_iff.mp hy
      rcases List.mem_cons.mp hy' with rfl | hy''
      · exact le_of_lt (lt_of_not_le hle)
      · exact hx y hy''

theorem sortByDateDesc_pairwise (l : List Event) :
    List.Pairwise (fun a b : Event => b.date ≤ a.date) (sortByDateDesc l) := by
  induction l with
  | nil => simp [sortByDateDesc]
  | cons x xs ih => exact insertByDateDesc_pairwise x (sortByDateDesc xs) ih

theorem sortByDateDesc_head_max (data : List Event) (h : Event) (t : List Event)
    (heq : sortByDateDesc data = h :: t) :
    h ∈ data ∧ ∀ x ∈ data, x.date ≤ h.date := by
  have hperm := sortByDateDesc_perm data
  rw [heq] at hperm
  constructor
  · exact hperm.mem_iff.mp (List.mem_cons_self h t)
  · intro x hx
    have hx' := hperm.mem_iff.mpr hx
    rcases List.mem_cons.mp hx' with rfl | hx''
    · exact le_refl _
    · have hpw := sortByDateDesc_pairwise data
      rw [heq] at hpw
      exact List.rel_of_pairwise_cons hpw hx''

/-! ### C5, C6, C10 -/

/-- C5: a full-sync write sets the `lastSyncDate` watermark to the maximum
date among the saved events (or to the current time when the batch is
empty), while an incremental write sets the watermark to the current time
regardless of the event dates. -/
theorem save_watermark_spec (store : Option UsageDataset) (data : List Event)
    (now : Int) :
    (saveUsageData store data true now).lastSyncDate = now ∧
    (data = [] → (saveUsageData store data false now).lastSyncDate = now) ∧
    (data ≠ [] → ∃ e, e ∈ data ∧
      (saveUsageData store data false now).lastSyncDate = e.date ∧
      ∀ x ∈ data, x.date ≤ e.date) := by
  refine ⟨rfl, ?_, ?_⟩
  · intro h
    subst h
    rfl
  · intro h
    have hne : sortByDateDesc data ≠ [] := by
      intro hnil
      have hp := sortByDateDesc_perm data
      rw [hnil] at hp
      exact h hp.symm.eq_nil
    cases heq : sortByDateDesc data with
    | nil => exact absurd heq hne
    | cons hd tl =>
      rcases sortByDateDesc_head_max data hd tl heq with ⟨hmem, hmax⟩
      refine ⟨hd, hmem, ?_, hmax⟩
      simp only [saveUsageData, if_false, Bool.false_eq_true, heq]

/-- Witness for C5 at a concrete input. -/
theorem save_watermark_spec_witness :
    ([] : List Event) = [] ∧
    (saveUsageData none [] false 42).lastSyncDate = 42 := by
  exact ⟨rfl, (save_watermark_spec none [] 42).2.1 rfl⟩

/-- C10: every full (non-incremental) save writes
`syncMetadata.adaptivePageSize = 500` regardless of the previously persisted
value, while an incremental save carries a nonzero persisted page size
forward unchanged — so a full sync discards accumulated page-size
adaptation. -/
theorem full_save_resets_adaptive_page_size (store : Option UsageDataset)
    (data : List Event) (now : Int) :
    (saveUsageData store data false now).syncMetadata.adaptivePageSize = 500 ∧
    (∀ d : UsageDataset, store = some d →
      d.syncMetadata.adaptivePageSize ≠ 0 →
      (saveUsageData store data true now).syncMetadata.adaptivePageSize =
        d.syncMetadata.adaptivePageSize) := by
  constructor
  · rfl
  · intro d hd hnz
    subst hd
    simp [saveUsageData, hnz]

/-! ### Concrete fixtures used by witnesses and counterexamples -/

/-- A concrete token-usage record. -/
def tuA : TokenUsage :=
  { inputTokens := 1, outputTokens := 2, cacheReadTokens := 3,
    cacheWriteTokens := 4, totalTokens := 10 }

/-- A concrete cost-information record with all-zero costs. -/
def ciZero : CostInfo :=
  { totalCents := 0, requestsCosts := 0, usageBasedCosts := 0,
    isIncluded := false, isFree := false, displayCost := 0,
    originalCost := 0, discountedCost := none, discount := none }

/-- A concrete baseline event. -/
def baseEvent : Event :=
  { id := "1000_aaaaaaaaa", date := 1000, model := "auto",
    kind := "usage_based", kindDisplay := "Usage Based", tokens := 10,
    tokenUsage := some tuA, cost := 0, costInfo := some ciZero, credits := 1,
    maxMode := false, source := "API", rawMaxMode := none }

/-- A concrete dataset holding the baseline event, page size 700. -/
def dsBase : UsageDataset :=
  { timestamp := 0, lastSyncDate := 0, totalEvents := 1,
    syncMetadata := { lastSuccessfulSync := 0, adaptivePageSize := 700,
                      syncStrategy := "incremental" },
    events := [baseEvent] }

/-- Witness for C10 at a concrete input: a full save overwrites the stored
page size 700 with 500, an incremental save keeps 700. -/
theorem full_save_resets_adaptive_page_size_witness :
    (saveUsageData (some dsBase) [] false 0).syncMetadata.adaptivePageSize = 500 ∧
    (some dsBase = some dsBase ∧ dsBase.syncMetadata.adaptivePageSize ≠ 0) ∧
    (saveUsageData (some dsBase) [] true 0).syncMetadata.adaptivePageSize =
      dsBase.syncMetadata.adaptivePageSize := by
  have h := full_save_resets_adaptive_page_size (some dsBase) [] 0
  exact ⟨h.1, ⟨rfl, by decide⟩, h.2 dsBase rfl (by decide)⟩

/-- C6 (amended): every dataset written by an incremental merge is ordered
newest-first by date, for every input batch ordering; a full-sync save
persists the batch in exactly the order it was given, so its output is
newest-first only when the batch already is. -/
theorem write_order_amended :
    (∀ (store : UsageDataset) (data : List Event) (now : Int) (d : UsageDataset),
      mergeUsageData (some store) data true now = some d →
      List.Pairwise (fun a b : Event => b.date ≤ a.date) d.events) ∧
    (∀ (store : Option UsageDataset) (data : List Event) (now : Int),
      (saveUsageData store data false now).events = data) := by
  constructor
  · intro store data now d hmerge
    by_cases hc : (newEventsFor (applyUpdates store.events
        (getActiveEvents now store.events) (jsMapValues data)).1 data).isEmpty ∧
        (applyUpdates store.events (getActiveEvents now store.events)
          (jsMapValues data)).2 = 0
    · simp only [mergeUsageData, if_true, hc, if_pos] at hmerge
      exact absurd hmerge (by simp)
    · simp only [mergeUsageData, if_true, hc, if_neg, not_false_iff] at hmerge
      have hd := Option.some_inj.mp hmerge
      rw [← hd]
      exact sortByDateDesc_pairwise _
  · intro store data now
    rfl

/-- An old event dated 0. -/
def eOld : Event := { baseEvent with id := "0_aaaaaaaaa", date := 0 }

/-- A newer event dated 5. -/
def eNew : Event := { baseEvent with id := "5_aaaaaaaaa", date := 5 }

/-- Counterexample to C6 as stated: a full-sync save of the batch
`[eOld, eNew]` (oldest first) persists it unsorted. -/
theorem write_order_counterexample :
    ¬ List.Pairwise (fun a b : Event => b.date ≤ a.date)
      ((saveUsageData none [eOld, eNew] false 100).events) := by
  intro h
  have hev : (saveUsageData none [eOld, eNew] false 100).events = [eOld, eNew] := rfl
  rw [hev] at h
  have := List.rel_of_pairwise_cons h (List.mem_cons_self eNew [])
  simp only [eOld, eNew, baseEvent] at this
  omega

/-- A genuinely new event dated 2000, distinct id and timestamp. -/
def eMid : Event := { baseEvent with id := "2000_bbbbbbbbb", date := 2000 }

/-- Witness for the amended C6 at a concrete input: merging one genuinely
new event into `dsBase` writes a dataset, and the theorem yields its
sortedness. -/
theorem write_order_amended_witness :
    ∃ d : UsageDataset,
      mergeUsageData (some dsBase) [eMid] true 3000 = some d ∧
      List.Pairwise (fun a b : Event => b.date ≤ a.date) d.events := by
  refine ⟨saveUsageData (some dsBase)
    (sortByDateDesc ([eMid] ++ [baseEvent])) true 3000, ?_, ?_⟩
  · decide
  · exact (write_order_amended).1 dsBase [eMid] 3000 _ (by decide)

/-! ### C2: active-event selection -/

/-- C2 (reason: spec-modelled window constants): on a newest-first stored
event list, `getActiveEvents` (1) returns only events dated within the last
`ACTIVE_EVENTS_CHECK_HOURS` hours of `now`, (2) returns at most
`ACTIVE_EVENTS_MAX_COUNT` of them, (3) returns every in-window event except
when the cap is hit, in which case everything returned is at least as recent
as the event left out, and (4) is non-empty whenever some stored event is in
the window. -/
theorem get_active_events_spec (now : Int) (events : List Event)
    (hsorted : List.Pairwise (fun a b : Event => b.date ≤ a.date) events) :
    (∀ e ∈ getActiveEvents now events,
      now - (ACTIVE_EVENTS_CHECK_HOURS : Int) * 60 * 60 * 1000 ≤ e.date) ∧
    (getActiveEvents now events).length ≤ ACTIVE_EVENTS_MAX_COUNT ∧
    (∀ e ∈ events,
      now - (ACTIVE_EVENTS_CHECK_HOURS : Int) * 60 * 60 * 1000 ≤ e.date →
      e ∈ getActiveEvents now events ∨
        ((getActiveEvents now events).length = ACTIVE_EVENTS_MAX_COUNT ∧
         ∀ r ∈ getActiveEvents now events, e.date ≤ r.date)) ∧
    ((∃ e ∈ events,
        now - (ACTIVE_EVENTS_CHECK_HOURS : Int) * 60 * 60 * 1000 ≤ e.date) →
      getActiveEvents now events ≠ []) := by
  rcases events with _ | ⟨x, xs⟩
  · refine ⟨by simp [getActiveEvents], by simp [getActiveEvents], by simp, ?_⟩
    rintro ⟨e, he, -⟩
    exact absurd he (List.not_mem_nil e)
  · set cutoff := now - (ACTIVE_EVENTS_CHECK_HOURS : Int) * 60 * 60 * 1000 with hcut
    set f := (x :: xs).filter (fun e => decide (cutoff ≤ e.date)) with hf
    have hmemf : ∀ e, e ∈ f ↔ e ∈ x :: xs ∧ cutoff ≤ e.date := by
      intro e
      simp [hf, List.mem_filter]
    have hact : getActiveEvents now (x :: xs) =
        if ACTIVE_EVENTS_MAX_COUNT < f.length then
          f.take ACTIVE_EVENTS_MAX_COUNT
        else f := by
      simp only [getActiveEvents, List.isEmpty_cons, if_false, Bool.false_eq_true,
        ← hcut, ← hf]
    have hfsorted : List.Pairwise (fun a b : Event => b.date ≤ a.date) f :=
      hsorted.sublist (List.filter_sublist _) |>.imp id |>.sublist (List.Sublist.refl f)
    by_cases hlen : ACTIVE_EVENTS_MAX_COUNT < f.length
    · rw [hact, if_pos hlen]
      refine ⟨?_, ?_, ?_, ?_⟩
      · intro e he
        exact ((hmemf e).mp (List.mem_of_mem_take he)).2
      · exact (List.length_take _ _).le.trans (min_le_left _ _)
      · intro e he hw
        by_cases hin : e ∈ f.take ACTIVE_EVENTS_MAX_COUNT
        · exact Or.inl hin
        · refine Or.inr ⟨?_, ?_⟩
          · rw [List.length_take]
            exact min_eq_left hlen.le
          · intro r hr
            have hef : e ∈ f := (hmemf e).mpr ⟨he, hw⟩
            have hsplit := List.take_append_drop ACTIVE_EVENTS_MAX_COUNT f
            have hpw : List.Pairwise (fun a b : Event => b.date ≤ a.date)
                (f.take ACTIVE_EVENTS_MAX_COUNT ++ f.drop ACTIVE_EVENTS_MAX_COUNT) := by
              rwa [hsplit]
            have hed : e ∈ f.drop ACTIVE_EVENTS_MAX_COUNT := by
              have := hef
              rw [← hsplit] at this
              rcases List.mem_append.mp this with h1 | h2
              · exact absurd h1 hin
              · exact h2
            exact (List.pairwise_append.mp hpw).2.2 r hr e hed
      · intro _
        have h100 : (f.take ACTIVE_EVENTS_MAX_COUNT).length = ACTIVE_EVENTS_MAX_COUNT := by
          rw [List.length_take]
          exact min_eq_left hlen.le
        intro hnil
        rw [hnil] at h100
        simp [ACTIVE_EVENTS_MAX_COUNT] at h100
    · rw [hact, if_neg hlen]
      refine ⟨?_, ?_, ?_, ?_⟩
      · intro e he
        exact ((hmemf e).mp he).2
      · exact le_of_not_lt hlen
      · intro e he hw
        exact Or.inl ((hmemf e).mpr ⟨he, hw⟩)
      · rintro ⟨e, he, hw⟩
        exact List.ne_nil_of_mem ((hmemf e).mpr ⟨he, hw⟩)

/-- Witness for C2 at a concrete input: one stored event dated within the
last 24 hours is selected. -/
theorem get_active_events_spec_witness :
    List.Pairwise (fun a b : Event => b.date ≤ a.date) [baseEvent] ∧
    getActiveEvents 1500 [baseEvent] ≠ [] := by
  have h := get_active_events_spec 1500 [baseEvent]
    (List.pairwise_singleton _ baseEvent)
  exact ⟨List.pairwise_singleton _ baseEvent,
    h.2.2.2 ⟨baseEvent, List.mem_cons_self _ _, by decide⟩⟩

/-! ### C7: adaptive page-size controller -/

theorem jsRound_intCast (n : Int) : jsRound (n : Rat) = n := by
  unfold jsRound
  rw [Int.floor_eq_iff]
  constructor
  · linarith
  · linarith

theorem jsRound_natCast (n : Nat) : jsRound (n : Rat) = n := by
  have := jsRound_intCast (n : Int)
  rwa [Int.cast_natCast] at this

theorem jsRound_mono {x y : Rat} (h : x ≤ y) : jsRound x ≤ jsRound y :=
  Int.floor_le_floor (by linarith)

/-- C7: the adaptive page-size controller grows the size by 1.5 saturating
at 1000 on a fast full page, shrinks it by 0.7 floored at 100 on a slow
page, leaves it unchanged otherwise, and never leaves [100, 1000] when it
starts there. -/
theorem adaptive_page_size_spec (currentPageSize responseTime eventsCount : Nat) :
    ((responseTime < 1000 ∧ eventsCount = currentPageSize) →
      nextAdaptivePageSize currentPageSize responseTime eventsCount =
        min ((jsRound ((currentPageSize : Rat) * (3 / 2))).toNat) 1000) ∧
    (3000 < responseTime →
      nextAdaptivePageSize currentPageSize responseTime eventsCount =
        max ((jsRound ((currentPageSize : Rat) * (7 / 10))).toNat) 100) ∧
    (¬ (responseTime < 1000 ∧ eventsCount = currentPageSize) →
      ¬ 3000 < responseTime →
      nextAdaptivePageSize currentPageSize responseTime eventsCount =
        currentPageSize) ∧
    (100 ≤ currentPageSize → currentPageSize ≤ 1000 →
      100 ≤ nextAdaptivePageSize currentPageSize responseTime eventsCount ∧
        nextAdaptivePageSize currentPageSize responseTime eventsCount ≤ 1000) := by
  have hfast : ∀ h : responseTime < 1000 ∧ eventsCount = currentPageSize,
      nextAdaptivePageSize currentPageSize responseTime eventsCount =
        min ((jsRound ((currentPageSize : Rat) * (3 / 2))).toNat) 1000 := by
    intro hcond
    unfold nextAdaptivePageSize
    rw [if_pos hcond]
    by_cases hcap : (currentPageSize : Rat) * (3 / 2) ≤ 1000
    · rw [min_eq_left hcap]
      by_cases hz : currentPageSize = 0
      · subst hz
        norm_num [jsRound]
      · have hne : (currentPageSize : Rat) * (3 / 2) ≠ (currentPageSize : Rat) := by
          intro heq
          have : (currentPageSize : Rat) = 0 := by linarith
          exact hz (by exact_mod_cast this)
        rw [if_neg hne]
        have hle : jsRound ((currentPageSize : Rat) * (3 / 2)) ≤ 1000 := by
          have := jsRound_mono hcap
          rwa [show ((1000 : Rat) = ((1000 : Int) : Rat)) by norm_num,
            jsRound_intCast] at this
        exact (min_eq_left (Int.toNat_le.mpr hle)).symm
    · push_neg at hcap
      rw [min_eq_right hcap.le]
      by_cases h1000 : currentPageSize = 1000
      · subst h1000
        rw [if_pos (by norm_num)]
        have : jsRound (((1000 : Nat) : Rat) * (3 / 2)) = 1500 := by
          rw [show (((1000 : Nat) : Rat) * (3 / 2) = ((1500 : Int) : Rat)) by
            push_cast; norm_num, jsRound_intCast]
        rw [this]
        rfl
      · have hne : (1000 : Rat) ≠ (currentPageSize : Rat) := by
          intro heq
          exact h1000 (by exact_mod_cast heq.symm)
        rw [if_neg hne]
        have hge : (1000 : Int) ≤ jsRound ((currentPageSize : Rat) * (3 / 2)) := by
          have := jsRound_mono hcap.le
          rwa [show ((1000 : Rat) = ((1000 : Int) : Rat)) by norm_num,
            jsRound_intCast] at this
        have hge' : 1000 ≤ (jsRound ((currentPageSize : Rat) * (3 / 2))).toNat := by
          have h0 : (0 : Int) ≤ jsRound ((currentPageSize : Rat) * (3 / 2)) := by
            linarith
          omega
        rw [show jsRound ((1000 : Rat)) = 1000 by
          rw [show ((1000 : Rat) = ((1000 : Int) : Rat)) by norm_num, jsRound_intCast]]
        rw [min_eq_right hge']
        rfl
  have hslow : 3000 < responseTime →
      nextAdaptivePageSize currentPageSize responseTime eventsCount =
        max ((jsRound ((currentPageSize : Rat) * (7 / 10))).toNat) 100 := by
    intro hcond
    unfold nextAdaptivePageSize
    have hnotfast : ¬ (responseTime < 1000 ∧ eventsCount = currentPageSize) := by
      intro h
      omega
    rw [if_neg hnotfast, if_pos hcond]
    by_cases hfloor : (100 : Rat) ≤ (currentPageSize : Rat) * (7 / 10)
    · rw [max_eq_left hfloor]
      have hz : currentPageSize ≠ 0 := by
        intro h
        rw [h] at hfloor
        norm_num at hfloor
      have hne : (currentPageSize : Rat) * (7 / 10) ≠ (currentPageSize : Rat) := by
        intro heq
        have : (currentPageSize : Rat) = 0 := by linarith
        exact hz (by exact_mod_cast this)
      rw [if_neg hne]
      have hge : (100 : Int) ≤ jsRound ((currentPageSize : Rat) * (7 / 10)) := by
        have := jsRound_mono hfloor
        rwa [show ((100 : Rat) = ((100 : Int) : Rat)) by norm_num,
          jsRound_intCast] at this
      have hge' : 100 ≤ (jsRound ((currentPageSize : Rat) * (7 / 10))).toNat := by
        omega
      exact (max_eq_left hge').symm
    · push_neg at hfloor
      rw [max_eq_right hfloor.le]
      by_cases h100 : currentPageSize = 100
      · subst h100
        rw [if_pos (by norm_num)]
        have : jsRound (((100 : Nat) : Rat) * (7 / 10)) = 70 := by
          rw [show (((100 : Nat) : Rat) * (7 / 10) = ((70 : Int) : Rat)) by
            push_cast; norm_num, jsRound_intCast]
        rw [this]
        rfl
      · have hne : (100 : Rat) ≠ (currentPageSize : Rat) := by
          intro heq
          exact h100 (by exact_mod_cast heq.symm)
        rw [if_neg hne]
        have hle : jsRound ((currentPageSize : Rat) * (7 / 10)) ≤ 100 := by
          have := jsRound_mono hfloor.le
          rwa [show ((100 : Rat) = ((100 : Int) : Rat)) by norm_num,
            jsRound_intCast] at this
        rw [show jsRound ((100 : Rat)) = 100 by
          rw [show ((100 : Rat) = ((100 : Int) : Rat)) by norm_num, jsRound_intCast]]
        rw [max_eq_right (Int.toNat_le.mpr hle)]
        rfl
  have hsame : ¬ (responseTime < 1000 ∧ eventsCount = currentPageSize) →
      ¬ 3000 < responseTime →
      nextAdaptivePageSize currentPageSize responseTime eventsCount =
        currentPageSize := by
    intro h1 h2
    unfold nextAdaptivePageSize
    rw [if_neg h1, if_neg h2, if_pos rfl]
  refine ⟨hfast, hslow, hsame, ?_⟩
  intro hlo hhi
  by_cases hc1 : responseTime < 1000 ∧ eventsCount = currentPageSize
  · rw [hfast hc1]
    constructor
    · have hcc : (currentPageSize : Rat) ≤ (currentPageSize : Rat) * (3 / 2) := by
        nlinarith [Nat.cast_nonneg (α := Rat) currentPageSize]
      have hge : (currentPageSize : Int) ≤ jsRound ((currentPageSize : Rat) * (3 / 2)) := by
        have := jsRound_mono hcc
        rwa [show ((currentPageSize : Rat) = ((currentPageSize : Int) : Rat)) by
          push_cast; ring, jsRound_intCast] at this
      have : 100 ≤ (jsRound ((currentPageSize : Rat) * (3 / 2))).toNat := by
        omega
      omega
    · exact min_le_right _ _
  · by_cases hc2 : 3000 < responseTime
    · rw [hslow hc2]
      constructor
      · exact le_max_right _ _
      · have hcc : (currentPageSize : Rat) * (7 / 10) ≤ (currentPageSize : Rat) := by
          nlinarith [Nat.cast_nonneg (α := Rat) currentPageSize]
        have hle : jsRound ((currentPageSize : Rat) * (7 / 10)) ≤ (currentPageSize : Int) := by
          have := jsRound_mono hcc
          rwa [show ((currentPageSize : Rat) = ((currentPageSize : Int) : Rat)) by
            push_cast; ring, jsRound_intCast] at this
        have : (jsRound ((currentPageSize : Rat) * (7 / 10))).toNat ≤ 1000 := by
          omega
        omega
    · rw [hsame hc1 hc2]
      exact ⟨hlo, hhi⟩

/-- Witness for C7 at concrete inputs: a fast full page at size 500 grows to
750, a slow page at size 500 shrinks to 350, and both stay within bounds. -/
theorem adaptive_page_size_spec_witness :
    nextAdaptivePageSize 500 500 500 = 750 ∧
    nextAdaptivePageSize 500 4000 120 = 350 ∧
    100 ≤ nextAdaptivePageSize 500 500 500 ∧
    nextAdaptivePageSize 500 500 500 ≤ 1000 := by
  have h1 := (adaptive_page_size_spec 500 500 500).1 ⟨by norm_num, rfl⟩
  have h2 := (adaptive_page_size_spec 500 4000 120).2.1 (by norm_num)
  have hb := (adaptive_page_size_spec 500 500 500).2.2.2 (by norm_num) (by norm_num)
  have e1 : jsRound (((500 : Nat) : Rat) * (3 / 2)) = 750 := by
    rw [show (((500 : Nat) : Rat) * (3 / 2) = ((750 : Int) : Rat)) by
      push_cast; norm_num, jsRound_intCast]
  have e2 : jsRound (((500 : Nat) : Rat) * (7 / 10)) = 350 := by
    rw [show (((500 : Nat) : Rat) * (7 / 10) = ((350 : Int) : Rat)) by
      push_cast; norm_num, jsRound_intCast]
  rw [e1] at h1
  rw [e2] at h2
  refine ⟨by rw [h1]; rfl, by rw [h2]; rfl, hb.1, hb.2⟩

/-! ### C8: update-detection predicate -/

theorem ite_true_or_decide (p : Prop) (inst : Decidable p) (r : Bool) :
    (@ite Bool p inst true r) = (@decide p inst || r) := by
  cases inst with
  | isTrue h => simp [h]
  | isFalse h => simp [h]

/-- C8: for two events with the same timestamp prefix that both carry
token-usage and cost-info records, `isEventUpdated` holds exactly when one
of the five scalar fields, one of the four token-usage sub-fields, or one of
the three compared cost-info fields differs; the full ids play no further
role. -/
theorem is_event_updated_iff (a b : Event) (tu1 tu2 : TokenUsage)
    (ci1 ci2 : CostInfo) (hts : tsOf a.id = tsOf b.id)
    (htu1 : a.tokenUsage = some tu1) (htu2 : b.tokenUsage = some tu2)
    (hci1 : a.costInfo = some ci1) (hci2 : b.costInfo = some ci2) :
    isEventUpdated a b = true ↔
      (a.credits ≠ b.credits ∨ a.tokens ≠ b.tokens ∨ a.cost ≠ b.cost ∨
       a.kind ≠ b.kind ∨ a.model ≠ b.model ∨
       tu1.inputTokens ≠ tu2.inputTokens ∨ tu1.outputTokens ≠ tu2.outputTokens ∨
       tu1.cacheReadTokens ≠ tu2.cacheReadTokens ∨
       tu1.cacheWriteTokens ≠ tu2.cacheWriteTokens ∨
       ci1.originalCost ≠ ci2.originalCost ∨
       ci1.discountedCost ≠ ci2.discountedCost ∨ ci1.discount ≠ ci2.discount) := by
  unfold isEventUpdated
  rw [htu1, htu2, hci1, hci2, if_neg (by simp [hts])]
  simp only [ite_true_or_decide]
  simp only [Bool.or_eq_true, decide_eq_true_eq, Bool.false_eq_true, or_false]
  tauto

/-- An event identical to `baseEvent` in every compared field but with a
different id suffix. -/
def sameTwin : Event := { baseEvent with id := "1000_bbbbbbbbb" }

/-- An event identical to `baseEvent` except for `credits`. -/
def creditTwin : Event := { baseEvent with id := "1000_ccccccccc", credits := 2 }

/-- Witness for C8 at concrete inputs: a twin that differs only in the id
suffix is flagged unchanged, a twin differing only in credits is flagged
updated. -/
theorem is_event_updated_iff_witness :
    isEventUpdated baseEvent sameTwin = false ∧
    isEventUpdated baseEvent creditTwin = true := by
  have hsame := is_event_updated_iff baseEvent sameTwin tuA tuA ciZero ciZero
    (by decide) rfl rfl rfl rfl
  have hcred := is_event_updated_iff baseEvent creditTwin tuA tuA ciZero ciZero
    (by decide) rfl rfl rfl rfl
  constructor
  · have hno : ¬ (baseEvent.credits ≠ sameTwin.credits ∨
        baseEvent.tokens ≠ sameTwin.tokens ∨ baseEvent.cost ≠ sameTwin.cost ∨
        baseEvent.kind ≠ sameTwin.kind ∨ baseEvent.model ≠ sameTwin.model ∨
        tuA.inputTokens ≠ tuA.inputTokens ∨ tuA.outputTokens ≠ tuA.outputTokens ∨
        tuA.cacheReadTokens ≠ tuA.cacheReadTokens ∨
        tuA.cacheWriteTokens ≠ tuA.cacheWriteTokens ∨
        ciZero.originalCost ≠ ciZero.originalCost ∨
        ciZero.discountedCost ≠ ciZero.discountedCost ∨
        ciZero.discount ≠ ciZero.discount) := by decide
    rcases hb : isEventUpdated baseEvent sameTwin with _ | _
    · rfl
    · exact absurd (hsame.mp hb) hno
  · exact hcred.mpr (Or.inl (by decide))

/-! ### C4: displayCost precedence -/

/-- The `totalCents` value visible to the parser: from the raw token-usage
sub-object, defaulting to 0 (the source leaves 0 in place when the field is
absent or falsy, which coincides with this default). -/
def rawTotalCents (event : RawEvent) : Rat :=
  (event.tokenUsage.bind RawTokenUsage.totalCents).getD 0

/-- The `usageBasedCosts` value visible to the parser, defaulting to 0. -/
def rawUsageBased (event : RawEvent) : Rat :=
  event.usageBasedCosts.getD 0

/-- The `requestsCosts` value visible to the parser, defaulting to 0. -/
def rawRequests (event : RawEvent) : Rat :=
  event.requestsCosts.getD 0

theorem parseCostInfo_displayCost_eq (event : RawEvent) :
    (parseCostInfo event).displayCost =
      (if isIncludedKind event.kind then 0
       else if isNotChargedKind event.kind then 0
       else if 0 < rawTotalCents event then rawTotalCents event / 100
       else if 0 < rawUsageBased event then rawUsageBased event
       else if 0 < rawRequests event then rawRequests event
       else 0) := by
  unfold parseCostInfo rawTotalCents rawUsageBased rawRequests
  rcases hk1 : isIncludedKind event.kind with _ | _
  · rcases hk2 : isNotChargedKind event.kind with _ | _
    · rcases htu : event.tokenUsage with _ | tu
      · rcases hrc : event.requestsCosts with _ | rc <;>
          rcases hub : event.usageBasedCosts with _ | ub <;>
          simp only [htu, hrc, hub, Option.bind_none, Option.getD_none,
            Option.getD_some, Bool.false_eq_true, if_false] <;>
          split_ifs <;> (try simp_all)
      · rcases htc : tu.totalCents with _ | c <;>
          rcases hrc : event.requestsCosts with _ | rc <;>
          rcases hub : event.usageBasedCosts with _ | ub <;>
          simp only [htu, htc, hrc, hub, Option.bind_some, Option.getD_none,
            Option.getD_some, Bool.false_eq_true, if_false] <;>
          split_ifs <;> (try simp_all) <;> (try linarith)
    · simp
  · simp

/-- The token-usage sub-object of `includedProRaw`. -/
def includedProTU : RawTokenUsage :=
  { inputTokens := some 5, outputTokens := some 6, cacheReadTokens := none,
    cacheWriteTokens := none, totalCents := some 2500 }

/-- A concrete raw event of an included-plan kind with nonzero cents. -/
def includedProRaw : RawEvent :=
  { timestamp := some 1600000000000,
    kind := some "USAGE_EVENT_KIND_INCLUDED_IN_PRO",
    customSubscriptionName := none, model := some "claude-4-sonnet",
    tokenUsage := some includedProTU, requestsCosts := some 3,
    usageBasedCosts := none, maxMode := none, detailsMaxMode := none }

/-- C4: the normalizer chooses `displayCost` by precedence — included-plan
kinds give 0 even with nonzero cents, then errored/aborted-not-charged kinds
give 0, then `totalCents / 100` when positive, then `usageBasedCosts` when
positive, then `requestsCosts` when positive, else 0; the event's `cost` and
its stored `costInfo.displayCost` both carry that value.  The last conjunct
instantiates the spec's own example. -/
theorem parse_display_cost_precedence (event : RawEvent) (now : Int)
    (suffix : String) :
    (parseUsageEvent event now suffix).cost =
      (if isIncludedKind event.kind then 0
       else if isNotChargedKind event.kind then 0
       else if 0 < rawTotalCents event then rawTotalCents event / 100
       else if 0 < rawUsageBased event then rawUsageBased event
       else if 0 < rawRequests event then rawRequests event
       else 0) ∧
    ((parseUsageEvent event now suffix).costInfo.map CostInfo.displayCost) =
      some ((parseUsageEvent event now suffix).cost) ∧
    (parseUsageEvent includedProRaw 0 "xxxxxxxxx").cost = 0 := by
  refine ⟨parseCostInfo_displayCost_eq event, rfl, ?_⟩
  have h := parseCostInfo_displayCost_eq includedProRaw
  have hk : isIncludedKind includedProRaw.kind = true := by decide
  rw [hk] at h
  simp only [if_true] at h
  exact h

/-! ### C3: statistics cost exclusion -/

/-- Sum of per-event costs over events whose kind is charged
(not errored-not-charged). -/
def chargedCostSum (l : List Event) : Rat :=
  ((l.filter (fun e => !(isErroredKind e.kind))).map eventCostOf).sum

/-- Sum of per-event costs over all events. -/
def totalCostSum (l : List Event) : Rat :=
  (l.map eventCostOf).sum

/-- Sum of per-event costs over the events of one `byKind` bucket. -/
def kindCostSum (l : List Event) (k : String) : Rat :=
  ((l.filter (fun e => kindKey e = k)).map eventCostOf).sum

/-- Sum of per-event costs over the charged events of one `byModel`
bucket. -/
def modelCostSum (l : List Event) (m : String) : Rat :=
  ((l.filter (fun e => decide (modelKey e = m) && !(isErroredKind e.kind))).map
    eventCostOf).sum

theorem alGet_bumpAgg_self (m : List (String × AggRecord)) (k : String)
    (f : AggRecord → AggRecord) :
    alGet (bumpAgg m k f) k = f (alGet m k) := by
  induction m with
  | nil => simp [bumpAgg, alGet]
  | cons p rest ih =>
    obtain ⟨k', v⟩ := p
    by_cases h : k' = k
    · simp [bumpAgg, alGet, h]
    · simp [bumpAgg, alGet, h, ih]

theorem alGet_bumpAgg_ne (m : List (String × AggRecord)) (k k' : String)
    (f : AggRecord → AggRecord) (h : k ≠ k') :
    alGet (bumpAgg m k f) k' = alGet m k' := by
  induction m with
  | nil => simp [bumpAgg, alGet, h]
  | cons p rest ih =>
    obtain ⟨k'', v⟩ := p
    by_cases h2 : k'' = k
    · subst h2
      simp [bumpAgg, alGet, h]
    · simp [bumpAgg, alGet, h2, ih]

theorem statsStep_fold_totalCost (data : List Event) (init : Stats) :
    (data.foldl statsStep init).totalCost = init.totalCost + chargedCostSum data := by
  induction data generalizing init with
  | nil => simp [chargedCostSum]
  | cons e es ih =>
    rw [List.foldl_cons, ih]
    unfold chargedCostSum
    rcases h : isErroredKind e.kind with _ | _
    · rw [List.filter_cons_of_pos (by simp [h])]
      simp only [statsStep, h, Bool.not_false, if_true, List.map_cons, List.sum_cons]
      ring
    · rw [List.filter_cons_of_neg (by simp [h])]
      simp only [statsStep, h, Bool.not_true, Bool.false_eq_true, if_false]

theorem statsStep_fold_estimatedCost (data : List Event) (init : Stats) :
    (data.foldl statsStep init).estimatedCost =
      init.estimatedCost + totalCostSum data := by
  induction data generalizing init with
  | nil => simp [totalCostSum]
  | cons e es ih =>
    rw [List.foldl_cons, ih]
    unfold totalCostSum
    simp only [statsStep, List.map_cons, List.sum_cons]
    ring

theorem statsStep_fold_byKind_cost (data : List Event) (init : Stats)
    (k : String) :
    (alGet (data.foldl statsStep init).byKind k).cost =
      (alGet init.byKind k).cost + kindCostSum data k := by
  induction data generalizing init with
  | nil => simp [kindCostSum]
  | cons e es ih =>
    rw [List.foldl_cons, ih]
    unfold kindCostSum
    by_cases h : kindKey e = k
    · rw [show (statsStep init e).byKind =
          bumpAgg init.byKind (kindKey e) (kindUpd e (statsMaxMode e) (eventCostOf e))
          from rfl, h, alGet_bumpAgg_self]
      rw [List.filter_cons_of_pos (by simp [h])]
      simp only [List.map_cons, List.sum_cons, kindUpd]
      ring
    · rw [show (statsStep init e).byKind =
          bumpAgg init.byKind (kindKey e) (kindUpd e (statsMaxMode e) (eventCostOf e))
          from rfl, alGet_bumpAgg_ne _ _ _ _ h]
      rw [List.filter_cons_of_neg (by simp [h])]

theorem statsStep_fold_byModel_cost (data : List Event) (init : Stats)
    (m : String) :
    (alGet (data.foldl statsStep init).byModel m).cost =
      (alGet init.byModel m).cost + modelCostSum data m := by
  induction data generalizing init with
  | nil => simp [modelCostSum]
  | cons e es ih =>
    rw [List.foldl_cons, ih]
    unfold modelCostSum
    by_cases h : modelKey e = m
    · rw [show (statsStep init e).byModel =
          bumpAgg init.byModel (modelKey e) (modelUpd e (statsMaxMode e) (eventCostOf e))
          from rfl, h, alGet_bumpAgg_self]
      rcases herr : isErroredKind e.kind with _ | _
      · rw [List.filter_cons_of_pos (by simp [h, herr])]
        simp only [List.map_cons, List.sum_cons, modelUpd, herr, Bool.not_false,
          if_true]
        ring
      · rw [List.filter_cons_of_neg (by simp [herr])]
        simp only [modelUpd, herr, Bool.not_true, Bool.false_eq_true, if_false]
    · rw [show (statsStep init e).byModel =
          bumpAgg init.byModel (modelKey e) (modelUpd e (statsMaxMode e) (eventCostOf e))
          from rfl, alGet_bumpAgg_ne _ _ _ _ h]
      rw [List.filter_cons_of_neg (by simp [h])]

/-- An errored-not-charged event of cost 5. -/
def errEvent : Event :=
  { baseEvent with
    id := "3000_eeeeeeeee"
    date := 3000
    kind := "errored_not_charged"
    kindDisplay := "Errored, Not Charged"
    cost := 5 }

/-- A charged event of cost 4. -/
def ev4 : Event :=
  { baseEvent with id := "4000_ddddddddd", date := 4000, cost := 4 }

/-- A charged event of cost 6. -/
def ev6 : Event :=
  { baseEvent with id := "5000_fffffffff", date := 5000, cost := 6 }

/-- The spec's example event set for the cost-exclusion property. -/
def exampleEvents : List Event := [errEvent, ev4, ev6]

/-- C3: recomputed statistics exclude errored-not-charged events from
`totalCost` and from each `byModel` bucket's cost, while `estimatedCost` and
each `byKind` bucket's cost sum over all events.  The last conjunct
instantiates the spec's own example (one errored event of cost 5, others
summing to 10). -/
theorem calculate_stats_cost_exclusion (now : Int) (data : List Event) :
    (calculateStats now data).totalCost = chargedCostSum data ∧
    (calculateStats now data).estimatedCost = totalCostSum data ∧
    (∀ k, (alGet (calculateStats now data).byKind k).cost = kindCostSum data k) ∧
    (∀ m, (alGet (calculateStats now data).byModel m).cost = modelCostSum data m) ∧
    ((calculateStats 0 exampleEvents).totalCost = 10 ∧
     (calculateStats 0 exampleEvents).estimatedCost = 15 ∧
     (alGet (calculateStats 0 exampleEvents).byKind "errored_not_charged").cost = 5) := by
  have htc : ∀ (n : Int) (l : List Event),
      (calculateStats n l).totalCost = chargedCostSum l := by
    intro n l
    have h := statsStep_fold_totalCost l
      { timestamp := n, totalEvents := l.length, totalTokens := 0, totalCost := 0,
        estimatedCost := 0, totalMaxMode := 0, byModel := [], byKind := [],
        byDate := [], recentEvents := [] }
    simpa [calculateStats] using h
  have hec : ∀ (n : Int) (l : List Event),
      (calculateStats n l).estimatedCost = totalCostSum l := by
    intro n l
    have h := statsStep_fold_estimatedCost l
      { timestamp := n, totalEvents := l.length, totalTokens := 0, totalCost := 0,
        estimatedCost := 0, totalMaxMode := 0, byModel := [], byKind := [],
        byDate := [], recentEvents := [] }
    simpa [calculateStats] using h
  have hbk : ∀ (n : Int) (l : List Event) (k : String),
      (alGet (calculateStats n l).byKind k).cost = kindCostSum l k := by
    intro n l k
    have h := statsStep_fold_byKind_cost l
      { timestamp := n, totalEvents := l.length, totalTokens := 0, totalCost := 0,
        estimatedCost := 0, totalMaxMode := 0, byModel := [], byKind := [],
        byDate := [], recentEvents := [] } k
    simpa [calculateStats, alGet, initAgg] using h
  have hbm : ∀ (n : Int) (l : List Event) (m : String),
      (alGet (calculateStats n l).byModel m).cost = modelCostSum l m := by
    intro n l m
    have h := statsStep_fold_byModel_cost l
      { timestamp := n, totalEvents := l.length, totalTokens := 0, totalCost := 0,
        estimatedCost := 0, totalMaxMode := 0, byModel := [], byKind := [],
        byDate := [], recentEvents := [] } m
    simpa [calculateStats, alGet, initAgg] using h
  refine ⟨htc now data, hec now data, hbk now data, hbm now data, ?_, ?_, ?_⟩
  · rw [htc 0 exampleEvents]
    simp +decide [chargedCostSum, exampleEvents, errEvent, ev4, ev6, baseEvent,
      eventCostOf, isErroredKind, ciZero]
    norm_num
  · rw [hec 0 exampleEvents]
    simp +decide [totalCostSum, exampleEvents, errEvent, ev4, ev6, baseEvent,
      eventCostOf, ciZero]
    norm_num
  · rw [hbk 0 exampleEvents]
    simp +decide [kindCostSum, exampleEvents, errEvent, ev4, ev6, baseEvent,
      eventCostOf, kindKey, ciZero]

/-! ### C9: no-op merge -/

theorem mapInsert_mem (acc : List Event) (e x : Event)
    (hx : x ∈ mapInsert acc e) : x ∈ acc ∨ x = e := by
  unfold mapInsert at hx
  split_ifs at hx with h
  · rcases List.mem_map.mp hx with ⟨y, hy, heq⟩
    by_cases hid : y.id = e.id
    · simp only [hid, if_true] at heq
      exact Or.inr heq.symm
    · simp only [hid, if_false] at heq
      exact Or.inl (heq ▸ hy)
  · rcases List.mem_append.mp hx with h1 | h2
    · exact Or.inl h1
    · exact Or.inr (List.mem_singleton.mp h2)

theorem jsMapValues_mem (l : List Event) (x : Event)
    (hx : x ∈ jsMapValues l) : x ∈ l := by
  unfold jsMapValues at hx
  suffices h : ∀ (acc : List Event), x ∈ l.foldl mapInsert acc →
      x ∈ acc ∨ x ∈ l by
    rcases h [] hx with h1 | h2
    · exact absurd h1 (List.not_mem_nil x)
    · exact h2
  clear hx
  induction l with
  | nil =>
    intro acc hx
    exact Or.inl hx
  | cons e es ih =>
    intro acc hx
    rw [List.foldl_cons] at hx
    rcases ih (mapInsert acc e) hx with h1 | h2
    · rcases mapInsert_mem acc e x h1 with h3 | h4
      · exact Or.inl h3
      · exact Or.inr (h4 ▸ List.mem_cons_self e es)
    · exact Or.inr (List.mem_cons_of_mem e h2)

theorem applyUpdates_noop (events active vals : List Event)
    (h : ∀ a ∈ active, ∀ u ∈ vals, isEventUpdated a u = false) :
    applyUpdates events active vals = (events, 0) := by
  unfold applyUpdates
  induction active with
  | nil => rfl
  | cons a as ih =>
    rw [List.foldl_cons]
    have hstep : updateStep vals (events, 0) a = (events, 0) := by
      unfold updateStep
      cases hfind : findUpdatedEvent vals (tsOf a.id) with
      | none => rfl
      | some u =>
        have hu : u ∈ vals := List.mem_of_find?_eq_some hfind
        simp [h a (List.mem_cons_self a as) u hu]
    rw [hstep]
    exact ih (fun a' ha' u hu => h a' (List.mem_cons_of_mem a ha') u hu)

/-- C9: an incremental merge whose batch brings nothing new — every incoming
event's id or timestamp prefix is already stored — and no updated active
events is a complete no-op: nothing is written (hence no statistics
recompute either). -/
theorem merge_noop_spec (existingData : UsageDataset) (newData : List Event)
    (now : Int)
    (h1 : ∀ m ∈ newData,
      (∃ e ∈ existingData.events, e.id = m.id) ∨
      (∃ e ∈ existingData.events, tsOf e.id = tsOf m.id))
    (h2 : ∀ a ∈ getActiveEvents now existingData.events, ∀ u ∈ newData,
      isEventUpdated a u = false) :
    mergeUsageData (some existingData) newData true now = none := by
  have hvals : ∀ a ∈ getActiveEvents now existingData.events,
      ∀ u ∈ jsMapValues newData, isEventUpdated a u = false :=
    fun a ha u hu => h2 a ha u (jsMapValues_mem newData u hu)
  have hupd := applyUpdates_noop existingData.events
    (getActiveEvents now existingData.events) (jsMapValues newData) hvals
  have hnew : newEventsFor existingData.events newData = [] := by
    unfold newEventsFor
    rw [List.filter_eq_nil_iff]
    intro m hm hcontra
    rcases Bool.and_eq_true _ _ |>.mp hcontra with ⟨hids, hts⟩
    rcases h1 m hm with ⟨e, he, heq⟩ | ⟨e, he, heq⟩
    · rw [Bool.not_eq_true', List.any_eq_false] at hids
      exact absurd (by simp [heq]) (hids e he)
    · rw [Bool.not_eq_true', List.any_eq_false] at hts
      exact absurd (by simp [heq]) (hts e he)
  simp [mergeUsageData, hupd, hnew]

/-- Witness for C9 at a concrete input: re-receiving an unchanged event
(same timestamp prefix, same compared fields, fresh id suffix) writes
nothing. -/
theorem merge_noop_spec_witness :
    mergeUsageData (some dsBase) [sameTwin] true 1500 = none := by
  apply merge_noop_spec
  · intro m hm
    rcases List.mem_singleton.mp hm with rfl
    exact Or.inr ⟨baseEvent, List.mem_cons_self _ _, by decide⟩
  · intro a ha u hu
    have ha' : a = baseEvent := by
      have : getActiveEvents 1500 dsBase.events = [baseEvent] := by decide
      rw [this] at ha
      exact List.mem_singleton.mp ha
    rcases List.mem_singleton.mp hu with rfl
    rw [ha']
    decide

/-! ### C1: merge deduplication -/

theorem isEventUpdated_ts_eq (a u : Event) (h : isEventUpdated a u = true) :
    tsOf a.id = tsOf u.id := by
  by_contra hne
  unfold isEventUpdated at h
  rw [if_pos hne] at h
  exact Bool.false_ne_true h

theorem replaceFirstById_ts_map (l : List Event) (tid : String) (u : Event)
    (h : tsOf u.id = tsOf tid) :
    (replaceFirstById l tid u).map (fun e => tsOf e.id) =
      l.map (fun e => tsOf e.id) := by
  induction l with
  | nil => rfl
  | cons e rest ih =>
    by_cases he : e.id = tid
    · simp [replaceFirstById, he, h]
    · simp [replaceFirstById, he, ih]

theorem updateStep_ts_map (vals : List Event) (acc : List Event × Nat)
    (a : Event) :
    (updateStep vals acc a).1.map (fun e => tsOf e.id) =
      acc.1.map (fun e => tsOf e.id) := by
  unfold updateStep
  cases hfind : findUpdatedEvent vals (tsOf a.id) with
  | none => rfl
  | some u =>
    by_cases hupd : isEventUpdated a u = true
    · simp only [hupd, if_true]
      exact replaceFirstById_ts_map acc.1 a.id u (isEventUpdated_ts_eq a u hupd).symm
    · simp [hupd]

theorem foldl_updateStep_ts_map (active vals : List Event)
    (acc : List Event × Nat) :
    ((active.foldl (updateStep vals) acc).1).map (fun e => tsOf e.id) =
      acc.1.map (fun e => tsOf e.id) := by
  induction active generalizing acc with
  | nil => rfl
  | cons a as ih => rw [List.foldl_cons, ih, updateStep_ts_map]

theorem applyUpdates_ts_map (events active vals : List Event) :
    ((applyUpdates events active vals).1).map (fun e => tsOf e.id) =
      events.map (fun e => tsOf e.id) :=
  foldl_updateStep_ts_map active vals (events, 0)

theorem filter_ts_length_eq (l1 l2 : List Event) (t : String)
    (h : l1.map (fun e => tsOf e.id) = l2.map (fun e => tsOf e.id)) :
    (l1.filter (fun e => tsOf e.id = t)).length =
      (l2.filter (fun e => tsOf e.id = t)).length := by
  rw [← List.countP_eq_length_filter, ← List.countP_eq_length_filter,
    show (fun e : Event => decide (tsOf e.id = t)) =
      ((fun s : String => decide (s = t)) ∘ (fun e : Event => tsOf e.id)) from rfl,
    ← List.countP_map, ← List.countP_map, h]

theorem unique_ts_filter (l : List Event) (s : Event)
    (hdist : List.Pairwise (fun a b : Event => tsOf a.id ≠ tsOf b.id) l)
    (hs : s ∈ l) :
    l.filter (fun e => tsOf e.id = tsOf s.id) = [s] := by
  induction l with
  | nil => exact absurd hs (List.not_mem_nil s)
  | cons x xs ih =>
    rcases List.pairwise_cons.mp hdist with ⟨hx, hxs⟩
    rcases List.mem_cons.mp hs with rfl | hs'
    · rw [List.filter_cons_of_pos (by simp)]
      have hnil : xs.filter (fun e => tsOf e.id = tsOf s.id) = [] := by
        rw [List.filter_eq_nil_iff]
        intro e he
        simp only [decide_eq_true_eq]
        exact fun hts => (hx e he) hts.symm
      rw [hnil]
    · rw [List.filter_cons_of_neg (by simp only [decide_eq_true_eq]; exact hx s hs')]
      exact ih hxs hs'

theorem replaceFirst_filter_singleton (l : List Event) (s n : Event)
    (t : String) (hts : tsOf s.id = t) (htn : tsOf n.id = t)
    (hfil : l.filter (fun e => tsOf e.id = t) = [s]) :
    (replaceFirstById l s.id n).filter (fun e => tsOf e.id = t) = [n] := by
  induction l with
  | nil => simp at hfil
  | cons e rest ih =>
    by_cases hp : tsOf e.id = t
    · rw [List.filter_cons_of_pos (by simp [hp])] at hfil
      have he : e = s := (List.cons_eq_cons.mp hfil).1
      have hrest : rest.filter (fun e => tsOf e.id = t) = [] :=
        (List.cons_eq_cons.mp hfil).2
      subst he
      rw [show replaceFirstById (e :: rest) e.id n = n :: rest from by
        simp [replaceFirstById]]
      rw [List.filter_cons_of_pos (by simp [htn]), hrest]
    · rw [List.filter_cons_of_neg (by simp [hp])] at hfil
      have hne : e.id ≠ s.id := by
        intro h
        exact hp (by rw [h, hts])
      rw [show replaceFirstById (e :: rest) s.id n =
          e :: replaceFirstById rest s.id n from by simp [replaceFirstById, hne]]
      rw [List.filter_cons_of_neg (by simp [hp])]
      exact ih hfil

theorem replaceFirst_filter_ne (l : List Event) (tid : String) (u : Event)
    (t : String) (h1 : tsOf tid ≠ t) (h2 : tsOf u.id ≠ t) :
    (replaceFirstById l tid u).filter (fun e => tsOf e.id = t) =
      l.filter (fun e => tsOf e.id = t) := by
  induction l with
  | nil => rfl
  | cons e rest ih =>
    by_cases he : e.id = tid
    · rw [show replaceFirstById (e :: rest) tid u = u :: rest from by
        simp [replaceFirstById, he]]
      rw [List.filter_cons_of_neg (by simp [h2]),
        List.filter_cons_of_neg (by simp only [decide_eq_true_eq]; rw [he]; exact h1)]
    · rw [show replaceFirstById (e :: rest) tid u =
          e :: replaceFirstById rest tid u from by simp [replaceFirstById, he]]
      by_cases hp : tsOf e.id = t
      · rw [List.filter_cons_of_pos (by simp [hp]),
          List.filter_cons_of_pos (by simp [hp]), ih]
      · rw [List.filter_cons_of_neg (by simp [hp]),
          List.filter_cons_of_neg (by simp [hp]), ih]

theorem foldl_updateStep_filter_preserved (vals A : List Event) (t : String)
    (hA : ∀ a ∈ A, tsOf a.id ≠ t) (acc : List Event × Nat) :
    ((A.foldl (updateStep vals) acc).1.filter (fun e => tsOf e.id = t) =
      acc.1.filter (fun e => tsOf e.id = t)) ∧
    acc.2 ≤ (A.foldl (updateStep vals) acc).2 := by
  induction A generalizing acc with
  | nil => exact ⟨rfl, le_refl _⟩
  | cons a as ih =>
    rw [List.foldl_cons]
    have hstep : ((updateStep vals acc a).1.filter (fun e => tsOf e.id = t) =
        acc.1.filter (fun e => tsOf e.id = t)) ∧
        acc.2 ≤ (updateStep vals acc a).2 := by
      unfold updateStep
      cases hfind : findUpdatedEvent vals (tsOf a.id) with
      | none => exact ⟨rfl, le_refl _⟩
      | some u =>
        by_cases hupd : isEventUpdated a u = true
        · simp only [hupd, if_true]
          refine ⟨?_, Nat.le_succ _⟩
          exact replaceFirst_filter_ne acc.1 a.id u t
            (hA a (List.mem_cons_self a as))
            (by rw [← isEventUpdated_ts_eq a u hupd]
                exact hA a (List.mem_cons_self a as))
        · simp [hupd]
    have hrest := ih (fun a' ha' => hA a' (List.mem_cons_of_mem a ha'))
      (updateStep vals acc a)
    exact ⟨hrest.1.trans hstep.1, hstep.2.trans hrest.2⟩

theorem applyUpdates_survivor (events vals A1 A2 : List Event) (s n : Event)
    (t : String) (hts : tsOf s.id = t) (htn : tsOf n.id = t)
    (hA1 : ∀ a ∈ A1, tsOf a.id ≠ t) (hA2 : ∀ a ∈ A2, tsOf a.id ≠ t)
    (hfil : events.filter (fun e => tsOf e.id = t) = [s])
    (hfind : findUpdatedEvent vals t = some n)
    (hupd : isEventUpdated s n = true) :
    ((applyUpdates events (A1 ++ s :: A2) vals).1.filter
      (fun e => tsOf e.id = t) = [n]) ∧
    1 ≤ (applyUpdates events (A1 ++ s :: A2) vals).2 := by
  unfold applyUpdates
  rw [List.foldl_append, List.foldl_cons]
  have hpres1 := foldl_updateStep_filter_preserved vals A1 t hA1 (events, 0)
  have hstep : updateStep vals (A1.foldl (updateStep vals) (events, 0)) s =
      (replaceFirstById (A1.foldl (updateStep vals) (events, 0)).1 s.id n,
       (A1.foldl (updateStep vals) (events, 0)).2 + 1) := by
    unfold updateStep
    rw [hts, hfind]
    simp only [hupd, if_true]
  rw [hstep]
  have hf1 : (A1.foldl (updateStep vals) (events, 0)).1.filter
      (fun e => tsOf e.id = t) = [s] := by
    rw [hpres1.1]
    exact hfil
  have hreplaced := replaceFirst_filter_singleton
    (A1.foldl (updateStep vals) (events, 0)).1 s n t hts htn hf1
  have hpres2 := foldl_updateStep_filter_preserved vals A2 t hA2
    (replaceFirstById (A1.foldl (updateStep vals) (events, 0)).1 s.id n,
     (A1.foldl (updateStep vals) (events, 0)).2 + 1)
  refine ⟨?_, ?_⟩
  · rw [hpres2.1]
    exact hreplaced
  · have h2 := hpres2.2
    exact le_trans (Nat.le_add_left 1 _) h2

theorem getActiveEvents_sublist (now : Int) (events : List Event) :
    (getActiveEvents now events).Sublist events := by
  unfold getActiveEvents
  by_cases h1 : events.isEmpty = true
  · simp [h1]
  · rw [if_neg h1]
    dsimp only
    split_ifs with h2
    · exact (List.take_sublist _ _).trans (List.filter_sublist _)
    · exact List.filter_sublist _

theorem merge_incremental_eq (existingData : UsageDataset) (newData : List Event)
    (now : Int) :
    mergeUsageData (some existingData) newData true now =
      if (newEventsFor (applyUpdates existingData.events
            (getActiveEvents now existingData.events) (jsMapValues newData)).1
            newData).isEmpty = true ∧
          (applyUpdates existingData.events
            (getActiveEvents now existingData.events) (jsMapValues newData)).2 = 0
      then none
      else some (saveUsageData (some existingData)
        (sortByDateDesc (newEventsFor (applyUpdates existingData.events
            (getActiveEvents now existingData.events) (jsMapValues newData)).1
            newData ++ (applyUpdates existingData.events
            (getActiveEvents now existingData.events) (jsMapValues newData)).1))
        true now) := rfl

theorem merge_dedup_survivor (existingData : UsageDataset) (newData : List Event)
    (now : Int) (s n : Event)
    (hdist : List.Pairwise (fun a b : Event => tsOf a.id ≠ tsOf b.id)
      existingData.events)
    (hs : s ∈ existingData.events)
    (hactive : s ∈ getActiveEvents now existingData.events)
    (hfind : findUpdatedEvent (jsMapValues newData) (tsOf s.id) = some n)
    (hupd : isEventUpdated s n = true) :
    ∃ d, mergeUsageData (some existingData) newData true now = some d ∧
      d.events.filter (fun e => tsOf e.id = tsOf s.id) = [n] := by
  rcases List.append_of_mem hactive with ⟨A1, A2, hsplit⟩
  have hadist : List.Pairwise (fun a b : Event => tsOf a.id ≠ tsOf b.id)
      (A1 ++ s :: A2) := by
    rw [← hsplit]
    exact List.Pairwise.sublist (getActiveEvents_sublist now existingData.events)
      hdist
  have hA1 : ∀ a ∈ A1, tsOf a.id ≠ tsOf s.id := fun a ha =>
    (List.pairwise_append.mp hadist).2.2 a ha s (List.mem_cons_self s A2)
  have hA2 : ∀ a ∈ A2, tsOf a.id ≠ tsOf s.id := fun a ha =>
    Ne.symm (List.rel_of_pairwise_cons (List.pairwise_append.mp hadist).2.1 ha)
  have hfil := unique_ts_filter existingData.events s hdist hs
  have htn : tsOf n.id = tsOf s.id := (isEventUpdated_ts_eq s n hupd).symm
  have hsurv := applyUpdates_survivor existingData.events (jsMapValues newData)
    A1 A2 s n (tsOf s.id) rfl htn hA1 hA2 hfil hfind hupd
  rw [← hsplit] at hsurv
  have hguard : ¬ ((newEventsFor (applyUpdates existingData.events
        (getActiveEvents now existingData.events) (jsMapValues newData)).1
        newData).isEmpty = true ∧
      (applyUpdates existingData.events
        (getActiveEvents now existingData.events) (jsMapValues newData)).2 = 0) := by
    rintro ⟨-, h0⟩
    omega
  have hnpost : n ∈ (applyUpdates existingData.events
      (getActiveEvents now existingData.events) (jsMapValues newData)).1 := by
    have hmemf : n ∈ (applyUpdates existingData.events
        (getActiveEvents now existingData.events)
        (jsMapValues newData)).1.filter (fun e => tsOf e.id = tsOf s.id) := by
      rw [hsurv.1]
      exact List.mem_singleton_self n
    exact (List.mem_filter.mp hmemf).1
  have hnil : (newEventsFor (applyUpdates existingData.events
      (getActiveEvents now existingData.events) (jsMapValues newData)).1
      newData).filter (fun e => tsOf e.id = tsOf s.id) = [] := by
    rw [List.filter_eq_nil_iff]
    intro m hm
    unfold newEventsFor at hm
    rcases List.mem_filter.mp hm with ⟨-, hcond⟩
    rcases Bool.and_eq_true _ _ |>.mp hcond with ⟨-, h2⟩
    rw [Bool.not_eq_true', List.any_eq_false] at h2
    have hnm := h2 n hnpost
    simp only [decide_eq_true_eq] at hnm ⊢
    intro hmt
    exact hnm (htn.trans hmt.symm)
  refine ⟨saveUsageData (some existingData)
    (sortByDateDesc (newEventsFor (applyUpdates existingData.events
        (getActiveEvents now existingData.events) (jsMapValues newData)).1
        newData ++ (applyUpdates existingData.events
        (getActiveEvents now existingData.events) (jsMapValues newData)).1))
    true now, ?_, ?_⟩
  · rw [merge_incremental_eq, if_neg hguard]
  · show ((sortByDateDesc _).filter (fun e => tsOf e.id = tsOf s.id)) = [n]
    have hperm := List.Perm.filter (fun e => decide (tsOf e.id = tsOf s.id))
      (sortByDateDesc_perm (newEventsFor (applyUpdates existingData.events
        (getActiveEvents now existingData.events) (jsMapValues newData)).1
        newData ++ (applyUpdates existingData.events
        (getActiveEvents now existingData.events) (jsMapValues newData)).1))
    rw [List.filter_append, hnil, List.nil_append, hsurv.1] at hperm
    exact List.perm_singleton.mp hperm

theorem merge_dedup_append_only (existingData : UsageDataset)
    (newData : List Event) (now : Int) (m : Event)
    (hm : m ∈ newEventsFor (applyUpdates existingData.events
      (getActiveEvents now existingData.events) (jsMapValues newData)).1 newData) :
    ∀ e ∈ existingData.events, e.id ≠ m.id ∧ tsOf e.id ≠ tsOf m.id := by
  unfold newEventsFor at hm
  rcases List.mem_filter.mp hm with ⟨-, hcond⟩
  rcases Bool.and_eq_true _ _ |>.mp hcond with ⟨-, h2⟩
  rw [Bool.not_eq_true', List.any_eq_false] at h2
  have htsmap := applyUpdates_ts_map existingData.events
    (getActiveEvents now existingData.events) (jsMapValues newData)
  intro e he
  have hts : tsOf e.id ≠ tsOf m.id := by
    have hmem : tsOf e.id ∈ existingData.events.map (fun e => tsOf e.id) :=
      List.mem_map_of_mem _ he
    rw [← htsmap] at hmem
    rcases List.mem_map.mp hmem with ⟨e', he', heq⟩
    have := h2 e' he'
    simp only [decide_eq_true_eq] at this
    rw [← heq]
    exact this
  exact ⟨fun hid => hts (by rw [hid]), hts⟩

/-- C1 (amended): in an incremental merge into a dataset whose stored
timestamp prefixes are pairwise distinct, (1) each stored prefix keeps
exactly one event in the resulting dataset (written or untouched); (2) when
the stored event carrying the prefix is among the active events and the
batch's match for it counts as updated, the dataset is written and the one
surviving event of that prefix is the incoming match; (3) an incoming event
is appended as new only when neither its full id nor its timestamp prefix is
already present in the stored events.  The claim as frozen omits the
active-window condition of (2); `merge_dedup_counterexample` shows it is
needed. -/
theorem merge_dedup_amended (existingData : UsageDataset) (newData : List Event)
    (now : Int) (s : Event)
    (hdist : List.Pairwise (fun a b : Event => tsOf a.id ≠ tsOf b.id)
      existingData.events)
    (hs : s ∈ existingData.events) :
    ((((match mergeUsageData (some existingData) newData true now with
        | some d => d.events
        | none => existingData.events : List Event)).filter
        (fun e => tsOf e.id = tsOf s.id)).length = 1) ∧
    (∀ n : Event, s ∈ getActiveEvents now existingData.events →
      findUpdatedEvent (jsMapValues newData) (tsOf s.id) = some n →
      isEventUpdated s n = true →
      ∃ d, mergeUsageData (some existingData) newData true now = some d ∧
        d.events.filter (fun e => tsOf e.id = tsOf s.id) = [n]) ∧
    (∀ m ∈ newEventsFor (applyUpdates existingData.events
        (getActiveEvents now existingData.events) (jsMapValues newData)).1 newData,
      ∀ e ∈ existingData.events, e.id ≠ m.id ∧ tsOf e.id ≠ tsOf m.id) := by
  have hfil := unique_ts_filter existingData.events s hdist hs
  refine ⟨?_, ?_, ?_⟩
  · rw [merge_incremental_eq]
    by_cases hc : (newEventsFor (applyUpdates existingData.events
          (getActiveEvents now existingData.events) (jsMapValues newData)).1
          newData).isEmpty = true ∧
        (applyUpdates existingData.events
          (getActiveEvents now existingData.events) (jsMapValues newData)).2 = 0
    · rw [if_pos hc]
      show ((existingData.events.filter (fun e => tsOf e.id = tsOf s.id)).length = 1)
      rw [hfil]
      rfl
    · rw [if_neg hc]
      show (((sortByDateDesc (newEventsFor (applyUpdates existingData.events
          (getActiveEvents now existingData.events) (jsMapValues newData)).1
          newData ++ (applyUpdates existingData.events
          (getActiveEvents now existingData.events)
          (jsMapValues newData)).1)).filter
          (fun e => tsOf e.id = tsOf s.id)).length = 1)
      have hperm := List.Perm.filter (fun e => decide (tsOf e.id = tsOf s.id))
        (sortByDateDesc_perm (newEventsFor (applyUpdates existingData.events
          (getActiveEvents now existingData.events) (jsMapValues newData)).1
          newData ++ (applyUpdates existingData.events
          (getActiveEvents now existingData.events) (jsMapValues newData)).1))
      rw [hperm.length_eq, List.filter_append, List.length_append]
      have htsmap := applyUpdates_ts_map existingData.events
        (getActiveEvents now existingData.events) (jsMapValues newData)
      have hpostlen : ((applyUpdates existingData.events
          (getActiveEvents now existingData.events)
          (jsMapValues newData)).1.filter
          (fun e => tsOf e.id = tsOf s.id)).length = 1 := by
        rw [filter_ts_length_eq _ existingData.events _ htsmap, hfil]
        rfl
      have hspresent : ∃ e ∈ (applyUpdates existingData.events
          (getActiveEvents now existingData.events) (jsMapValues newData)).1,
          tsOf e.id = tsOf s.id := by
        have hmem : tsOf s.id ∈ existingData.events.map (fun e => tsOf e.id) :=
          List.mem_map_of_mem _ hs
        rw [← htsmap] at hmem
        rcases List.mem_map.mp hmem with ⟨e', he', heq⟩
        exact ⟨e', he', heq⟩
      have hnil : (newEventsFor (applyUpdates existingData.events
          (getActiveEvents now existingData.events) (jsMapValues newData)).1
          newData).filter (fun e => tsOf e.id = tsOf s.id) = [] := by
        rw [List.filter_eq_nil_iff]
        intro m hm
        rcases hspresent with ⟨e0, he0, hts0⟩
        have := (merge_dedup_append_only existingData newData now m hm)
        simp only [decide_eq_true_eq]
        intro hmt
        have hcontra : ∀ e ∈ (applyUpdates existingData.events
            (getActiveEvents now existingData.events) (jsMapValues newData)).1,
            tsOf e.id ≠ tsOf m.id := by
          unfold newEventsFor at hm
          rcases List.mem_filter.mp hm with ⟨-, hcond⟩
          rcases Bool.and_eq_true _ _ |>.mp hcond with ⟨-, h2⟩
          rw [Bool.not_eq_true', List.any_eq_false] at h2
          intro e he
          have h2e := h2 e he
          simpa using h2e
        exact hcontra e0 he0 (hts0.trans hmt.symm)
      rw [hnil]
      simpa using hpostlen
  · intro n hactive hfind hupd
    exact merge_dedup_survivor existingData newData now s n hdist hs hactive
      hfind hupd
  · intro m hm
    exact merge_dedup_append_only existingData newData now m hm

/-- Counterexample to C1 as frozen: the stored event is a day old (outside
the active window), the incoming event shares its timestamp prefix and
differs in `credits` (flagged updated by the §4.5 comparison), yet the merge
writes nothing — the stored event survives, not the incoming one. -/
theorem merge_dedup_counterexample :
    mergeUsageData (some dsBase) [creditTwin] true 200000000000 = none ∧
    isEventUpdated baseEvent creditTwin = true ∧
    tsOf creditTwin.id = tsOf baseEvent.id ∧
    dsBase.events = [baseEvent] ∧
    creditTwin ≠ baseEvent := by
  exact ⟨by decide, by decide, by decide, rfl, by decide⟩

/-- Witness for the amended C1 at a concrete input: with the stored event
active and the incoming twin differing in credits, the merge writes a
dataset whose only event of that prefix is the incoming twin. -/
theorem merge_dedup_amended_witness :
    ∃ d, mergeUsageData (some dsBase) [creditTwin] true 1500 = some d ∧
      d.events.filter (fun e => tsOf e.id = tsOf baseEvent.id) = [creditTwin] := by
  exact (merge_dedup_amended dsBase [creditTwin] 1500 baseEvent
    (List.pairwise_singleton _ baseEvent) (List.mem_cons_self _ _)).2.1 creditTwin
    (by decide) (by decide) (by decide)
